import Mathlib

/-!
Verification of the batch job supervisor in scripts/process_dataset.py.

The script scans an input root for video files, and for each one decides
whether to skip it (results artifact present, failure marker present, no
camera id in the name, or calibration file missing), otherwise records a
failure marker, spawns an isolated worker process, waits for it, and maps
the worker's exit code to an outcome, updating the on-disk markers.

We embed the coordinator shallowly: the filesystem is an explicit state
(a list of directories and an association list of files with their lines),
paths are strings, the worker is an exit-code oracle, and filesystem
operations that can raise OSError in Python consult a failure oracle and
return Except (an uncaught Python exception is the .error case).
-/

namespace ProcessDataset

/-- Task state read from the on-disk markers (spec section 3). -/
inductive TaskState where
  | Done
  | PreviouslyFailed
  | NotStarted
deriving DecidableEq

/-- Outcome of one task attempt (spec section 3). -/
inductive Outcome where
  | Completed
  | SkippedAlreadyDone
  | SkippedPreviouslyFailed
  | SkippedUnprocessable
  | CrashedOOM
  | FailedOther
deriving DecidableEq

/-- Filesystem operations performed by the coordinator itself; each one can
raise OSError in Python. -/
inductive FsOp where
  | mkdir (p : String)
  | write (p : String)
  | append (p : String)
  | unlink (p : String)
deriving DecidableEq

/-- Shallow filesystem state: directories that exist, and files as an
association list from path to list of text lines. -/
structure FS where
  dirs : List String
  files : List (String × List String)
deriving DecidableEq

def FS.dirExists (fs : FS) (p : String) : Bool :=
  fs.dirs.contains p

def FS.fileExists (fs : FS) (p : String) : Bool :=
  fs.files.any (fun e => e.1 == p)

def FS.lines (fs : FS) (p : String) : List String :=
  match fs.files.find? (fun e => e.1 == p) with
  | some e => e.2
  | none => []

/-- Path.mkdir(parents=True, exist_ok=True): afterwards the directory exists. -/
def FS.mkdirP (fs : FS) (p : String) : FS :=
  if fs.dirs.contains p then fs else { fs with dirs := p :: fs.dirs }

/-- open(p, "w"): truncate/create the file with the given lines. -/
def FS.writeFile (fs : FS) (p : String) (ls : List String) : FS :=
  { fs with files := (p, ls) :: fs.files.filter (fun e => !(e.1 == p)) }

/-- open(p, "a") followed by writing one line: create the file if absent,
append the line otherwise. -/
def FS.appendFile (fs : FS) (p : String) (l : String) : FS :=
  fs.writeFile p (fs.lines p ++ [l])

/-- Path.unlink(): remove the file. -/
def FS.unlink (fs : FS) (p : String) : FS :=
  { fs with files := fs.files.filter (fun e => !(e.1 == p)) }

/-! ### Path helper functions (mirroring pathlib on POSIX) -/

/-- Boolean list-prefix test. -/
def listStartsWith [DecidableEq α] : List α → List α → Bool
  | [], _ => true
  | _ :: _, [] => false
  | a :: as, b :: bs => a = b && listStartsWith as bs

/-- Split a character list on a separator character. -/
def splitOnChar (sep : Char) : List Char → List (List Char)
  | [] => [[]]
  | c :: cs =>
    let r := splitOnChar sep cs
    if c = sep then [] :: r
    else
      match r with
      | [] => [[c]]
      | h :: t => (c :: h) :: t

/-- Last path component of a path string (Path(p).name). -/
def basename (p : String) : String :=
  match (splitOnChar '/' p.data).getLast? with
  | some l => String.mk l
  | none => ""

/-- Directory part of a path string (Path(p).parent), "." when there is no
directory part. -/
def dirname (p : String) : String :=
  let comps := splitOnChar '/' p.data
  match comps.dropLast with
  | [] => "."
  | cs => String.mk (List.intercalate ['/'] cs)

/-- Split a file name into (stem, suffix) following pathlib: the suffix is
name[i:] for i the index of the last dot when 0 < i < len(name) - 1,
otherwise empty. -/
def extSplit (name : List Char) : List Char × List Char :=
  let afterDot := name.reverse.takeWhile (fun c => !(c = '.'))
  if afterDot.length = name.length then (name, [])
  else if afterDot.length = 0 then (name, [])
  else
    let i := name.length - 1 - afterDot.length
    if i = 0 then (name, []) else (name.take i, name.drop i)

/-- Path(file).stem: file name without its extension. -/
def stem (name : String) : String :=
  String.mk (extSplit name.data).1

/-- Path(file).suffix: the extension including the leading dot. -/
def extOf (name : String) : String :=
  String.mk (extSplit name.data).2

def lowerStr (s : String) : String :=
  String.mk (s.data.map Char.toLower)

/-- PurePath joining where a "." component is dropped. -/
def joinPath (a b : String) : String :=
  if a = "." then b else if b = "." then a else a ++ "/" ++ b

/-- video_file.relative_to(input_path).parent with the ValueError fallback
to Path("."): drop the input-root segment and take the directory part. -/
def relParent (inputRoot filePath : String) : String :=
  let pre := inputRoot.data ++ ['/']
  if listStartsWith pre filePath.data then
    dirname (String.mk (filePath.data.drop pre.length))
  else "."

/-! ### Scanner -/

/-- The fixed allow-list of media extensions (line 82 of the script). -/
def videoExtensions : List String := [".mp4", ".avi", ".mov", ".mkv"]

/-- Path(file).suffix.lower() in video_extensions. -/
def isVideoFile (p : String) : Bool :=
  videoExtensions.contains (lowerStr (extOf (basename p)))

/-- Lexical comparison of paths by character code points, as Python string
comparison orders them. -/
def pathLe (a b : String) : Bool :=
  pathLeChars a.data b.data
where
  pathLeChars : List Char → List Char → Bool
    | [], _ => true
    | _ :: _, [] => false
    | x :: xs, y :: ys => if x = y then pathLeChars xs ys else decide (x < y)

/-- The path order as a Prop relation, for the sortedness lemmas. -/
def PathLe (a b : String) : Prop := pathLe a b = true

instance : DecidableRel PathLe := fun a b => by
  unfold PathLe; infer_instance

/-- The corpus scanner (lines 82-92): filter the walked files by extension
and sort the resulting paths lexically (video_files.sort()). -/
def scan (walkFiles : List String) : List String :=
  (walkFiles.filter isVideoFile).insertionSort PathLe

/-! ### Resource-key extraction: re.search(r'cam(\d+)', video_name) -/

/-- Whether the pattern cam(\d+) matches at the start of the character
list; if so, return the maximal digit run (group 1). -/
def camAt : List Char → Option (List Char)
  | 'c' :: 'a' :: 'm' :: rest =>
    if (rest.takeWhile Char.isDigit).isEmpty then none
    else some (rest.takeWhile Char.isDigit)
  | _ => none

/-- re.search: leftmost position at which cam(\d+) matches. -/
def findCamDigits : List Char → Option (List Char)
  | [] => none
  | c :: cs =>
    match camAt (c :: cs) with
    | some ds => some ds
    | none => findCamDigits cs

/-! ### Task-derived paths -/

structure Config where
  inputRoot : String
  outputRoot : String
  calibRoot : String
deriving DecidableEq

def videoNameOf (f : String) : String := stem (basename f)

/-- current_output_dir = output_path / rel_path / video_name (line 112). -/
def outDirOf (cfg : Config) (f : String) : String :=
  joinPath (joinPath cfg.outputRoot (relParent cfg.inputRoot f)) (videoNameOf f)

/-- failed_marker = current_output_dir / "FAILED_RUN.txt" (line 113). -/
def markerOf (outDir : String) : String := outDir ++ "/FAILED_RUN.txt"

/-- The success marker checked at line 116. -/
def resultsOf (outDir : String) : String := outDir ++ "/results.pkl"

/-- calib_file = calib_path / f"{cam_id}.txt" (line 130). -/
def calibOf (cfg : Config) (camId : List Char) : String :=
  cfg.calibRoot ++ "/" ++ String.mk camId ++ ".txt"

/-! ### Completion ledger -/

/-- The three-state classification the skip checks of lines 115-121 read off
the markers: the results artifact means Done, otherwise the failure marker
means PreviouslyFailed, otherwise (including when output_dir does not
exist) NotStarted. -/
def classify (fs : FS) (outDir : String) : TaskState :=
  if fs.dirExists outDir then
    if fs.fileExists (resultsOf outDir) then .Done
    else if fs.fileExists (markerOf outDir) then .PreviouslyFailed
    else .NotStarted
  else .NotStarted

/-- Lines 139-141: create the output directory (with parents) and write the
failure marker with a "started" record, before the worker is launched.
Either operation can raise OSError, which is uncaught in the script. -/
def beginAttempt (fails : FsOp → Bool) (cfg : Config) (f : String) (fs : FS) :
    Except FsOp FS :=
  let outDir := outDirOf cfg f
  if fails (.mkdir outDir) then .error (.mkdir outDir)
  else
    let fs1 := fs.mkdirP outDir
    if fails (.write (markerOf outDir)) then .error (.write (markerOf outDir))
    else .ok (fs1.writeFile (markerOf outDir)
      ["Processing started for " ++ basename f])

/-- Modelled from the spec: the heavy computation (the "Pipeline", an
external collaborator whose code is not under src/) produces the results
artifact results.pkl under output_dir when it completes successfully, and
the worker exits 0 exactly when it succeeded; on any failure or kill no
results artifact appears. -/
def workerEffect (outDir : String) (exit : Int) (fs : FS) : FS :=
  if exit = 0 then fs.writeFile (resultsOf outDir) [] else fs

def oomLine (exit : Int) : String :=
  "Crashed with exit code " ++ toString exit ++ " (likely OOM)"

def failLine (exit : Int) : String :=
  "Failed with exit code " ++ toString exit

/-- Lines 158-161: on success, delete the failure marker if present. -/
def recordSuccess (fails : FsOp → Bool) (marker : String) (fs : FS) :
    Except FsOp FS :=
  if fs.fileExists marker then
    if fails (.unlink marker) then .error (.unlink marker)
    else .ok (fs.unlink marker)
  else .ok fs

/-- Lines 158-172: map the worker's termination status to an outcome and
update the failure marker accordingly. Exit code 0 is success; 247 and -9
are treated as the SIGKILL encodings (likely OOM); every other non-zero
exit is an ordinary failure. -/
def handleExit (fails : FsOp → Bool) (marker : String) (exit : Int) (fs : FS) :
    Except FsOp (FS × Outcome) :=
  if exit = 0 then
    match recordSuccess fails marker fs with
    | .error e => .error e
    | .ok fs1 => .ok (fs1, .Completed)
  else if exit = 247 ∨ exit = -9 then
    if fails (.append marker) then .error (.append marker)
    else .ok (fs.appendFile marker (oomLine exit), .CrashedOOM)
  else
    if fails (.append marker) then .error (.append marker)
    else .ok (fs.appendFile marker (failLine exit), .FailedOther)

/-- One iteration of the loop body of main (lines 102-172) for one video
file: skip checks in the script's order (markers first, then camera id,
then calibration file), then begin_attempt, worker execution, and exit
handling. -/
def processTask (fails : FsOp → Bool) (cfg : Config) (exit : Int) (fs : FS)
    (f : String) : Except FsOp (FS × Outcome) :=
  let outDir := outDirOf cfg f
  match classify fs outDir with
  | .Done => .ok (fs, .SkippedAlreadyDone)
  | .PreviouslyFailed => .ok (fs, .SkippedPreviouslyFailed)
  | .NotStarted =>
    match findCamDigits (videoNameOf f).data with
    | none => .ok (fs, .SkippedUnprocessable)
    | some camId =>
      if fs.fileExists (calibOf cfg camId) then
        match beginAttempt fails cfg f fs with
        | .error e => .error e
        | .ok fs2 => handleExit fails (markerOf outDir) exit (workerEffect outDir exit fs2)
      else .ok (fs, .SkippedUnprocessable)

/-- The for loop over the sorted video files: an uncaught exception in one
iteration aborts the whole batch (the .error case); otherwise the outcome
of every task is collected in order. -/
def runBatch (fails : FsOp → Bool) (cfg : Config) (exitOf : String → Int) :
    FS → List String → Except FsOp (FS × List Outcome)
  | fs, [] => .ok (fs, [])
  | fs, f :: rest =>
    match processTask fails cfg (exitOf f) fs f with
    | .error e => .error e
    | .ok (fs1, o) =>
      match runBatch fails cfg exitOf fs1 rest with
      | .error e => .error e
      | .ok (fs2, os) => .ok (fs2, o :: os)

/-- The whole of main: when the input root does not exist the run ends at
once with no task processed (lines 77-79); otherwise the scanned, sorted
descriptor list is processed in full. The walk argument is the file
listing of the input root when it exists. -/
def mainRun (fails : FsOp → Bool) (cfg : Config) (exitOf : String → Int)
    (walk : Option (List String)) (fs : FS) : Except FsOp (FS × List Outcome) :=
  match walk with
  | none => .ok (fs, [])
  | some walkFiles => runBatch fails cfg exitOf fs (scan walkFiles)

/-- The oracle under which no coordinator filesystem operation raises. -/
def noFail : FsOp → Bool := fun _ => false

/-- The worker entry point's frame-cap argument (line 44 of the script):
max_frame = max_frames if max_frames > 0 else None. -/
def workerMaxFrame (max_frames : Int) : Option Int :=
  if max_frames > 0 then some max_frames else none

/-! ### Basic lemmas about the filesystem operations -/

theorem FS.fileExists_iff {fs : FS} {q : String} :
    fs.fileExists q = true ↔ ∃ ls, (q, ls) ∈ fs.files := by
  simp only [FS.fileExists, List.any_eq_true, beq_iff_eq]
  constructor
  · rintro ⟨⟨a, ls⟩, hm, he⟩
    subst he
    exact ⟨ls, hm⟩
  · rintro ⟨ls, hm⟩
    exact ⟨(q, ls), hm, rfl⟩

theorem FS.fileExists_writeFile {fs : FS} {p q : String} {ls : List String} :
    (fs.writeFile p ls).fileExists q = true ↔ q = p ∨ fs.fileExists q = true := by
  simp only [FS.fileExists_iff, FS.writeFile, List.mem_cons, List.mem_filter,
    Prod.mk.injEq, Bool.not_eq_eq_eq_not, Bool.not_true, beq_eq_false_iff_ne,
    ne_eq]
  constructor
  · rintro ⟨l, (⟨hq, _⟩ | ⟨hm, _⟩)⟩
    · exact Or.inl hq
    · exact Or.inr ⟨l, hm⟩
  · rintro (rfl | ⟨l, hm⟩)
    · exact ⟨ls, Or.inl ⟨rfl, rfl⟩⟩
    · by_cases hqp : q = p
      · exact ⟨ls, Or.inl ⟨hqp, rfl⟩⟩
      · exact ⟨l, Or.inr ⟨hm, hqp⟩⟩

theorem FS.fileExists_unlink {fs : FS} {p q : String} :
    (fs.unlink p).fileExists q = true ↔ q ≠ p ∧ fs.fileExists q = true := by
  simp only [FS.fileExists_iff, FS.unlink, List.mem_filter,
    Bool.not_eq_eq_eq_not, Bool.not_true, beq_eq_false_iff_ne, ne_eq]
  constructor
  · rintro ⟨l, hm, hne⟩
    exact ⟨hne, l, hm⟩
  · rintro ⟨hne, l, hm⟩
    exact ⟨l, hm, hne⟩

theorem FS.fileExists_appendFile {fs : FS} {p q : String} {l : String} :
    (fs.appendFile p l).fileExists q = true ↔ q = p ∨ fs.fileExists q = true := by
  simp [FS.appendFile, FS.fileExists_writeFile]

theorem FS.fileExists_mkdirP {fs : FS} {p q : String} :
    (fs.mkdirP p).fileExists q = fs.fileExists q := by
  simp only [FS.mkdirP]
  split <;> rfl

theorem FS.dirExists_writeFile {fs : FS} {p q : String} {ls : List String} :
    (fs.writeFile p ls).dirExists q = fs.dirExists q := rfl

theorem FS.dirExists_appendFile {fs : FS} {p q : String} {l : String} :
    (fs.appendFile p l).dirExists q = fs.dirExists q := rfl

theorem FS.dirExists_unlink {fs : FS} {p q : String} :
    (fs.unlink p).dirExists q = fs.dirExists q := rfl

theorem FS.dirExists_iff {fs : FS} {q : String} :
    fs.dirExists q = true ↔ q ∈ fs.dirs := by
  simp [FS.dirExists]

theorem FS.dirExists_mkdirP {fs : FS} {p q : String} :
    (fs.mkdirP p).dirExists q = true ↔ q = p ∨ fs.dirExists q = true := by
  unfold FS.mkdirP
  split <;> rename_i h
  · constructor
    · exact fun hq => Or.inr hq
    · rintro (rfl | hq)
      · exact h
      · exact hq
  · simp only [FS.dirExists_iff, List.mem_cons]

theorem FS.lines_writeFile_self {fs : FS} {p : String} {ls : List String} :
    (fs.writeFile p ls).lines p = ls := by
  simp [FS.lines, FS.writeFile, List.find?]

theorem find?_filter_ne {p q : String} (h : q ≠ p) :
    ∀ l : List (String × List String),
      (l.filter (fun e => !(e.1 == p))).find? (fun e => e.1 == q)
        = l.find? (fun e => e.1 == q)
  | [] => rfl
  | a :: t => by
    by_cases hap : a.1 = p
    · rw [List.filter_cons_of_neg (by simp [hap]),
        List.find?_cons_of_neg t (by simp only [beq_iff_eq, hap]; exact fun hc => h hc.symm),
        find?_filter_ne h t]
    · rw [List.filter_cons_of_pos (by simpa using hap)]
      by_cases haq : a.1 = q
      · rw [List.find?_cons_of_pos _ (by simpa using haq),
          List.find?_cons_of_pos _ (by simpa using haq)]
      · rw [List.find?_cons_of_neg _ (by simpa using haq),
          List.find?_cons_of_neg _ (by simpa using haq),
          find?_filter_ne h t]

theorem FS.lines_writeFile_other {fs : FS} {p q : String} {ls : List String}
    (h : q ≠ p) : (fs.writeFile p ls).lines q = fs.lines q := by
  unfold FS.lines FS.writeFile
  rw [List.find?_cons_of_neg _ (by simp only [beq_iff_eq]; exact fun hc => h hc.symm),
    find?_filter_ne h]

theorem FS.lines_unlink_other {fs : FS} {p q : String}
    (h : q ≠ p) : (fs.unlink p).lines q = fs.lines q := by
  unfold FS.lines FS.unlink
  rw [find?_filter_ne h]

theorem FS.lines_appendFile_self {fs : FS} {p : String} {l : String} :
    (fs.appendFile p l).lines p = fs.lines p ++ [l] := by
  simp [FS.appendFile, FS.lines_writeFile_self]

theorem FS.lines_mkdirP {fs : FS} {p q : String} :
    (fs.mkdirP p).lines q = fs.lines q := by
  simp only [FS.mkdirP]
  split <;> rfl

theorem FS.dirExists_mono_mkdirP {fs : FS} {p q : String}
    (h : fs.dirExists q = true) : (fs.mkdirP p).dirExists q = true :=
  FS.dirExists_mkdirP.mpr (Or.inr h)

/-! ### Distinctness of the paths the coordinator touches -/

theorem append_ne_of_rev_take_ne {s1 s2 : List Char} (k : Nat)
    (h1 : k ≤ s1.length) (h2 : k ≤ s2.length)
    (hne : s1.reverse.take k ≠ s2.reverse.take k) :
    ∀ a b : List Char, a ++ s1 ≠ b ++ s2 := by
  intro a b h
  apply hne
  have hr : s1.reverse ++ a.reverse = s2.reverse ++ b.reverse := by
    have := congrArg List.reverse h
    simpa [List.reverse_append] using this
  have := congrArg (List.take k) hr
  rwa [List.take_append_of_le_length (by simpa using h1),
    List.take_append_of_le_length (by simpa using h2)] at this

theorem strAppend_left_cancel {s a b : String} (h : s ++ a = s ++ b) : a = b := by
  apply String.ext
  have := congrArg String.data h
  rw [String.data_append, String.data_append] at this
  exact List.append_cancel_left this

theorem strAppend_right_cancel {s a b : String} (h : a ++ s = b ++ s) : a = b := by
  apply String.ext
  have := congrArg String.data h
  rw [String.data_append, String.data_append] at this
  exact List.append_cancel_right this

/-- The failure marker and the results artifact of any two output
directories are distinct files. -/
theorem markerOf_ne_resultsOf (d1 d2 : String) : markerOf d1 ≠ resultsOf d2 := by
  intro h
  have hd : d1.data ++ "/FAILED_RUN.txt".data = d2.data ++ "/results.pkl".data := by
    have := congrArg String.data h
    simpa [markerOf, resultsOf, String.data_append] using this
  exact append_ne_of_rev_take_ne 12 (by decide) (by decide) (by decide) _ _ hd

theorem markerOf_inj {d1 d2 : String} (h : markerOf d1 = markerOf d2) : d1 = d2 :=
  strAppend_right_cancel h

theorem resultsOf_inj {d1 d2 : String} (h : resultsOf d1 = resultsOf d2) : d1 = d2 :=
  strAppend_right_cancel h

/-- camAt returns a non-empty run of digits. -/
theorem camAt_digits {cs ds : List Char} (h : camAt cs = some ds) :
    ds ≠ [] ∧ ∀ c ∈ ds, c.isDigit = true := by
  unfold camAt at h
  split at h
  · split at h
    · exact absurd h (by simp)
    · rename_i hne
      cases h
      exact ⟨by simpa [List.isEmpty_iff] using hne,
        fun c hc => List.mem_takeWhile_imp hc⟩
  · exact absurd h (by simp)

/-- findCamDigits returns a non-empty run of digits. -/
theorem findCamDigits_digits {cs ds : List Char} (h : findCamDigits cs = some ds) :
    ds ≠ [] ∧ ∀ c ∈ ds, c.isDigit = true := by
  induction cs with
  | nil => exact absurd h (by simp [findCamDigits])
  | cons c t ih =>
    simp only [findCamDigits] at h
    split at h
    · rename_i hsome
      cases h
      exact camAt_digits hsome
    · exact ih h

/-- A calibration file path is never a failure marker path: the character
before its ".txt" extension is a digit, not the letter N. -/
theorem calibOf_ne_markerOf (cfg : Config) {ds : List Char} (hne : ds ≠ [])
    (hdig : ∀ c ∈ ds, c.isDigit = true) (d : String) :
    calibOf cfg ds ≠ markerOf d := by
  intro h
  have hdget := hdig (ds.getLast hne) (List.getLast_mem hne)
  have hds : ds.dropLast ++ [ds.getLast hne] = ds := List.dropLast_append_getLast hne
  have hd : (cfg.calibRoot.data ++ '/' :: ds.dropLast)
        ++ (ds.getLast hne :: ['.', 't', 'x', 't'])
      = d.data ++ "/FAILED_RUN.txt".data := by
    have h2 := congrArg String.data h
    simp only [calibOf, markerOf, String.data_append] at h2
    conv_rhs => rw [← h2, ← hds]
    simp
  refine append_ne_of_rev_take_ne 5 (by rw [List.length_cons]; decide) (by decide) ?_ _ _ hd
  intro htake
  simp only [List.reverse_cons, List.reverse_nil] at htake
  have hlast : ds.getLast hne = 'N' := by
    have h5 := congrArg (fun l => l.getLast?) htake
    simpa using h5
  rw [hlast] at hdget
  exact absurd hdget (by decide)

/-- A calibration file path is never a results artifact path. -/
theorem calibOf_ne_resultsOf (cfg : Config) {ds : List Char} (hne : ds ≠ [])
    (d : String) : calibOf cfg ds ≠ resultsOf d := by
  intro h
  have hds : ds.dropLast ++ [ds.getLast hne] = ds := List.dropLast_append_getLast hne
  have hd : (cfg.calibRoot.data ++ '/' :: ds.dropLast)
        ++ (ds.getLast hne :: ['.', 't', 'x', 't'])
      = d.data ++ "/results.pkl".data := by
    have h2 := congrArg String.data h
    simp only [calibOf, resultsOf, String.data_append] at h2
    conv_rhs => rw [← h2, ← hds]
    simp
  have h4 := congrArg (fun l => l.take 4) (congrArg List.reverse hd)
  simp only [List.reverse_append] at h4
  rw [List.take_append_of_le_length (by rw [List.reverse_cons]; simp),
    List.take_append_of_le_length (by decide)] at h4
  simp at h4

/-! ### Behaviour of the ledger operations -/

/-- Under the no-failure oracle, begin_attempt creates the directory and
writes the started record. -/
theorem beginAttempt_noFail (cfg : Config) (f : String) (fs : FS) :
    beginAttempt noFail cfg f fs = .ok ((fs.mkdirP (outDirOf cfg f)).writeFile
      (markerOf (outDirOf cfg f)) ["Processing started for " ++ basename f]) := rfl

theorem resultsOf_ne_markerOf (d1 d2 : String) : resultsOf d1 ≠ markerOf d2 :=
  fun h => markerOf_ne_resultsOf d2 d1 h.symm

/-- handleExit under the no-failure oracle never raises and only produces a
worker outcome. -/
theorem handleExit_noFail_ok (marker : String) (exit : Int) (fs : FS) :
    ∃ fs1 o, handleExit noFail marker exit fs = .ok (fs1, o)
      ∧ (o = .Completed ∨ o = .CrashedOOM ∨ o = .FailedOther) := by
  unfold handleExit recordSuccess
  split
  · cases hm : fs.fileExists marker
    · exact ⟨_, _, rfl, Or.inl rfl⟩
    · exact ⟨_, _, rfl, Or.inl rfl⟩
  · split
    · exact ⟨_, _, rfl, Or.inr (Or.inl rfl)⟩
    · exact ⟨_, _, rfl, Or.inr (Or.inr rfl)⟩

/-- Any successful handleExit yields a worker outcome, never a skip. -/
theorem handleExit_outcome {fails : FsOp → Bool} {marker : String} {exit : Int}
    {fs fs1 : FS} {o : Outcome} (h : handleExit fails marker exit fs = .ok (fs1, o)) :
    o = .Completed ∨ o = .CrashedOOM ∨ o = .FailedOther := by
  unfold handleExit at h
  split at h
  · split at h
    · cases h
    · cases h
      exact Or.inl rfl
  · split at h
    · split at h
      · cases h
      · cases h
        exact Or.inr (Or.inl rfl)
    · split at h
      · cases h
      · cases h
        exact Or.inr (Or.inr rfl)

/-- C2: classification reads exactly one of three states off marker
presence: Done when the results artifact exists, PreviouslyFailed when the
failure marker exists without it, NotStarted when neither exists
(including when output_dir itself does not exist); Done takes priority
when both markers exist; and after record_success on a state where the
worker produced the results artifact, classify yields Done and the
failure marker no longer exists. The two hypotheses say the filesystem is
well-formed: a file can only exist inside an existing directory. -/
theorem classify_three_state (fs : FS) (outDir : String)
    (hres : fs.fileExists (resultsOf outDir) = true → fs.dirExists outDir = true)
    (hmk : fs.fileExists (markerOf outDir) = true → fs.dirExists outDir = true) :
    (classify fs outDir = .Done ↔ fs.fileExists (resultsOf outDir) = true)
    ∧ (classify fs outDir = .PreviouslyFailed ↔
        fs.fileExists (markerOf outDir) = true ∧ fs.fileExists (resultsOf outDir) = false)
    ∧ (classify fs outDir = .NotStarted ↔
        fs.fileExists (markerOf outDir) = false ∧ fs.fileExists (resultsOf outDir) = false)
    ∧ (fs.fileExists (resultsOf outDir) = true →
        ∀ fs1, recordSuccess noFail (markerOf outDir) fs = .ok fs1 →
          classify fs1 outDir = .Done ∧ fs1.fileExists (markerOf outDir) = false) := by
  refine ⟨?_, ?_, ?_, ?_⟩
  · unfold classify
    cases hdir : fs.dirExists outDir
    · simp only [Bool.false_eq_true, if_false]
      constructor
      · intro hc; cases hc
      · intro hr; rw [hres hr] at hdir; cases hdir
    · simp only [if_true]
      cases hr : fs.fileExists (resultsOf outDir)
      · simp only [Bool.false_eq_true, if_false]
        split <;> simp
      · simp
  · unfold classify
    cases hdir : fs.dirExists outDir
    · simp only [Bool.false_eq_true, if_false]
      constructor
      · intro hc; cases hc
      · rintro ⟨hm, _⟩; rw [hmk hm] at hdir; cases hdir
    · simp only [if_true]
      cases hr : fs.fileExists (resultsOf outDir)
      · simp only [Bool.false_eq_true, if_false]
        cases hm : fs.fileExists (markerOf outDir) <;> simp
      · simp
  · unfold classify
    cases hdir : fs.dirExists outDir
    · constructor
      · intro _
        constructor
        · cases hm : fs.fileExists (markerOf outDir)
          · rfl
          · rw [hmk hm] at hdir; cases hdir
        · cases hr : fs.fileExists (resultsOf outDir)
          · rfl
          · rw [hres hr] at hdir; cases hdir
      · intro _
        simp
    · cases hr : fs.fileExists (resultsOf outDir)
      · cases hm : fs.fileExists (markerOf outDir) <;> simp
      · simp
  · intro hr fs1 hrec
    unfold recordSuccess at hrec
    split at hrec <;> rename_i hm
    · simp only [noFail, Bool.false_eq_true, if_false] at hrec
      cases hrec
      have hr1 : (fs.unlink (markerOf outDir)).fileExists (resultsOf outDir) = true :=
        FS.fileExists_unlink.mpr ⟨resultsOf_ne_markerOf outDir outDir, hr⟩
      constructor
      · unfold classify
        rw [FS.dirExists_unlink, hres hr]
        simp [hr1]
      · cases hc : (fs.unlink (markerOf outDir)).fileExists (markerOf outDir)
        · rfl
        · exact absurd (FS.fileExists_unlink.mp hc).1 (by simp)
    · cases hrec
      constructor
      · unfold classify
        rw [hres hr]
        simp [hr]
      · simpa using hm

/-- A witness for classify_three_state at a concrete filesystem. -/
theorem classify_three_state_witness :
    classify ⟨["out/v"], [("out/v/FAILED_RUN.txt", ["x"])]⟩ "out/v" = .PreviouslyFailed
      ∧ (⟨["out/v"], [("out/v/FAILED_RUN.txt", ["x"])]⟩ : FS).fileExists
          (markerOf "out/v") = true := by
  have h := classify_three_state ⟨["out/v"], [("out/v/FAILED_RUN.txt", ["x"])]⟩ "out/v"
    (by intro h; cases h) (by intro _; rfl)
  exact ⟨h.2.1.mpr (by constructor <;> rfl), rfl⟩

/-- C3: begin_attempt creates output_dir and writes the failure marker with
a started record, strictly before the worker runs (in processTask the
worker effect and exit handling are applied only to begin_attempt's
result); classify immediately after begin_attempt yields PreviouslyFailed.
The hypothesis hres says the results artifact can only exist inside an
existing output directory. -/
theorem classify_after_beginAttempt (cfg : Config) (f : String) (fs : FS)
    (hcl : classify fs (outDirOf cfg f) = .NotStarted)
    (hres : fs.fileExists (resultsOf (outDirOf cfg f)) = true →
      fs.dirExists (outDirOf cfg f) = true) :
    ∃ fs1, beginAttempt noFail cfg f fs = .ok fs1
      ∧ classify fs1 (outDirOf cfg f) = .PreviouslyFailed
      ∧ fs1.lines (markerOf (outDirOf cfg f))
          = ["Processing started for " ++ basename f]
      ∧ fs1.dirExists (outDirOf cfg f) = true := by
  refine ⟨_, beginAttempt_noFail cfg f fs, ?_, FS.lines_writeFile_self, ?_⟩
  · have hresF : fs.fileExists (resultsOf (outDirOf cfg f)) = false := by
      cases hr : fs.fileExists (resultsOf (outDirOf cfg f))
      · rfl
      · unfold classify at hcl
        rw [hres hr] at hcl
        simp [hr] at hcl
    unfold classify
    have hdir : ((fs.mkdirP (outDirOf cfg f)).writeFile (markerOf (outDirOf cfg f))
        ["Processing started for " ++ basename f]).dirExists (outDirOf cfg f) = true := by
      rw [FS.dirExists_writeFile]
      exact FS.dirExists_mkdirP.mpr (Or.inl rfl)
    rw [hdir]
    have hres1 : ((fs.mkdirP (outDirOf cfg f)).writeFile (markerOf (outDirOf cfg f))
        ["Processing started for " ++ basename f]).fileExists
          (resultsOf (outDirOf cfg f)) = false := by
      cases hq : ((fs.mkdirP (outDirOf cfg f)).writeFile (markerOf (outDirOf cfg f))
        ["Processing started for " ++ basename f]).fileExists (resultsOf (outDirOf cfg f))
      · rfl
      · rcases FS.fileExists_writeFile.mp hq with hc | hc
        · exact absurd hc (resultsOf_ne_markerOf _ _)
        · rw [FS.fileExists_mkdirP] at hc
          rw [hc] at hresF
          cases hresF
    rw [hres1]
    have hmk1 : ((fs.mkdirP (outDirOf cfg f)).writeFile (markerOf (outDirOf cfg f))
        ["Processing started for " ++ basename f]).fileExists
          (markerOf (outDirOf cfg f)) = true :=
      FS.fileExists_writeFile.mpr (Or.inl rfl)
    simp [hmk1]
  · rw [FS.dirExists_writeFile]
    exact FS.dirExists_mkdirP.mpr (Or.inl rfl)

/-- A witness for classify_after_beginAttempt on the empty filesystem. -/
theorem classify_after_beginAttempt_witness :
    ∃ fs1, beginAttempt noFail ⟨"in", "out", "cal"⟩ "in/a_cam1.mp4" ⟨[], []⟩ = .ok fs1
      ∧ classify fs1 (outDirOf ⟨"in", "out", "cal"⟩ "in/a_cam1.mp4") = .PreviouslyFailed
      ∧ fs1.lines (markerOf (outDirOf ⟨"in", "out", "cal"⟩ "in/a_cam1.mp4"))
          = ["Processing started for " ++ basename "in/a_cam1.mp4"]
      ∧ fs1.dirExists (outDirOf ⟨"in", "out", "cal"⟩ "in/a_cam1.mp4") = true :=
  classify_after_beginAttempt ⟨"in", "out", "cal"⟩ "in/a_cam1.mp4" ⟨[], []⟩
    (by rfl) (by intro h; cases h)

/-- The outcome component of one loop-iteration result, when the iteration
did not raise. -/
def resultOutcome : Except FsOp (FS × Outcome) → Option Outcome
  | .ok (_, o) => some o
  | .error _ => none

theorem FS.fileExists_unlink_self {fs : FS} {p : String} :
    (fs.unlink p).fileExists p = false := by
  cases h : (fs.unlink p).fileExists p
  · rfl
  · exact absurd (FS.fileExists_unlink.mp h).1 (by simp)

/-- C1 (amended): exit code 0 is success and the failure marker is removed;
the SIGKILL encodings 247 and -9 map to CrashedOOM with an OOM-tagged
reason line recording the exit code appended to the failure marker; every
other non-zero exit — including any other signal-termination status such
as -11 — maps to FailedOther with a reason line (exit code, no timestamp)
appended; on both failure outcomes the failure marker exists afterwards
and is never deleted. -/
theorem handleExit_mapping (fs : FS) (marker : String) (exit : Int) :
    (exit = 0 → ∃ fs1, handleExit noFail marker exit fs = .ok (fs1, .Completed)
        ∧ fs1.fileExists marker = false)
    ∧ ((exit = 247 ∨ exit = -9) →
        handleExit noFail marker exit fs
          = .ok (fs.appendFile marker (oomLine exit), .CrashedOOM)
        ∧ (fs.appendFile marker (oomLine exit)).fileExists marker = true
        ∧ (fs.appendFile marker (oomLine exit)).lines marker
            = fs.lines marker ++ [oomLine exit])
    ∧ (exit ≠ 0 → ¬(exit = 247 ∨ exit = -9) →
        handleExit noFail marker exit fs
          = .ok (fs.appendFile marker (failLine exit), .FailedOther)
        ∧ (fs.appendFile marker (failLine exit)).fileExists marker = true
        ∧ (fs.appendFile marker (failLine exit)).lines marker
            = fs.lines marker ++ [failLine exit]) := by
  refine ⟨?_, ?_, ?_⟩
  · rintro rfl
    unfold handleExit recordSuccess
    cases hm : fs.fileExists marker
    · exact ⟨fs, rfl, hm⟩
    · exact ⟨fs.unlink marker, rfl, FS.fileExists_unlink_self⟩
  · rintro (rfl | rfl)
    · exact ⟨rfl, FS.fileExists_appendFile.mpr (Or.inl rfl), FS.lines_appendFile_self⟩
    · exact ⟨rfl, FS.fileExists_appendFile.mpr (Or.inl rfl), FS.lines_appendFile_self⟩
  · intro hne hns
    unfold handleExit
    rw [if_neg hne, if_neg hns]
    exact ⟨rfl, FS.fileExists_appendFile.mpr (Or.inl rfl), FS.lines_appendFile_self⟩

/-- A witness for handleExit_mapping at the exits 0, -9 and 5. -/
theorem handleExit_mapping_witness :
    (∃ fs1, handleExit noFail "m" 0 ⟨[], [("m", ["s"])]⟩ = .ok (fs1, .Completed)
        ∧ fs1.fileExists "m" = false)
    ∧ handleExit noFail "m" (-9) ⟨[], [("m", ["s"])]⟩
        = .ok ((FS.mk [] [("m", ["s"])]).appendFile "m" (oomLine (-9)), .CrashedOOM)
    ∧ handleExit noFail "m" 5 ⟨[], [("m", ["s"])]⟩
        = .ok ((FS.mk [] [("m", ["s"])]).appendFile "m" (failLine 5), .FailedOther) :=
  ⟨(handleExit_mapping ⟨[], [("m", ["s"])]⟩ "m" 0).1 rfl,
    ((handleExit_mapping ⟨[], [("m", ["s"])]⟩ "m" (-9)).2.1 (Or.inr rfl)).1,
    ((handleExit_mapping ⟨[], [("m", ["s"])]⟩ "m" 5).2.2 (by decide) (by decide)).1⟩

/-- C1 counterexample: a worker killed by signal 11 (SIGSEGV, reported by
multiprocessing as exit code -11, a signal-kill status) is mapped to
FailedOther, not CrashedOOM: only the literal values 247 and -9 are
treated as killed-by-OS. -/
theorem signal_kill_not_CrashedOOM :
    resultOutcome (processTask noFail ⟨"in", "out", "cal"⟩ (-11)
      ⟨[], [("cal/12.txt", [])]⟩ "in/a/b_cam12.mp4") = some .FailedOther
    ∧ Outcome.FailedOther ≠ Outcome.CrashedOOM :=
  ⟨rfl, by decide⟩

/-- In the run branch (NotStarted, resource key found, calibration file
present) the loop body is begin_attempt, then the worker, then the exit
handling, in that order. -/
theorem processTask_noFail_run (cfg : Config) (exit : Int) (fs : FS) (f : String)
    {camId : List Char}
    (hcl : classify fs (outDirOf cfg f) = .NotStarted)
    (hcam : findCamDigits (videoNameOf f).data = some camId)
    (hcal : fs.fileExists (calibOf cfg camId) = true) :
    processTask noFail cfg exit fs f
      = handleExit noFail (markerOf (outDirOf cfg f)) exit
          (workerEffect (outDirOf cfg f) exit
            ((fs.mkdirP (outDirOf cfg f)).writeFile (markerOf (outDirOf cfg f))
              ["Processing started for " ++ basename f])) := by
  simp only [processTask]
  rw [hcl, hcam]
  dsimp only
  rw [if_pos hcal]
  rfl

/-- Each loop iteration under the no-failure oracle returns ok. -/
theorem processTask_noFail_ok (cfg : Config) (exit : Int) (fs : FS) (f : String) :
    ∃ fs1 o, processTask noFail cfg exit fs f = .ok (fs1, o) := by
  simp only [processTask]
  cases classify fs (outDirOf cfg f)
  · exact ⟨_, _, rfl⟩
  · exact ⟨_, _, rfl⟩
  · cases findCamDigits (videoNameOf f).data
    · exact ⟨_, _, rfl⟩
    · rename_i camId
      dsimp only
      cases hcal : fs.fileExists (calibOf cfg camId)
      · exact ⟨_, _, rfl⟩
      · obtain ⟨fs1, o, hh, _⟩ := handleExit_noFail_ok (markerOf (outDirOf cfg f)) exit
          (workerEffect (outDirOf cfg f) exit
            ((fs.mkdirP (outDirOf cfg f)).writeFile (markerOf (outDirOf cfg f))
              ["Processing started for " ++ basename f]))
        exact ⟨fs1, o, hh⟩

/-- C4: no per-task worker result ever terminates the batch: under every
exit-code oracle the coordinator produces exactly one outcome per
descriptor and the run ends only after the full descriptor sequence is
exhausted; the scanner-level error (input root does not exist) ends the
run with no task processed. -/
theorem batch_never_aborts (cfg : Config) (exitOf : String → Int) (fs : FS)
    (files : List String) :
    (∃ fs1 os, runBatch noFail cfg exitOf fs files = .ok (fs1, os)
      ∧ os.length = files.length)
    ∧ mainRun noFail cfg exitOf none fs = .ok (fs, []) := by
  refine ⟨?_, rfl⟩
  induction files generalizing fs with
  | nil => exact ⟨fs, [], rfl, rfl⟩
  | cons f rest ih =>
    obtain ⟨fs1, o, h1⟩ := processTask_noFail_ok cfg (exitOf f) fs f
    obtain ⟨fs2, os, h2, hlen⟩ := ih fs1
    refine ⟨fs2, o :: os, ?_, by simp [hlen]⟩
    simp only [runBatch, h1, h2]

/-- C6 (amended): the coordinator consults the ledger before the
unprocessability check: for a task whose name has no resource key the
outcome follows the markers — SkippedAlreadyDone when the ledger says
Done, SkippedPreviouslyFailed when it says PreviouslyFailed — and only on
NotStarted is SkippedUnprocessable reported; the filesystem is unchanged
in every case. -/
theorem no_resource_key_outcome (fails : FsOp → Bool) (cfg : Config) (exit : Int)
    (fs : FS) (f : String) (hcam : findCamDigits (videoNameOf f).data = none) :
    processTask fails cfg exit fs f = .ok (fs,
      match classify fs (outDirOf cfg f) with
      | .Done => .SkippedAlreadyDone
      | .PreviouslyFailed => .SkippedPreviouslyFailed
      | .NotStarted => .SkippedUnprocessable) := by
  simp only [processTask]
  cases classify fs (outDirOf cfg f)
  · rfl
  · rfl
  · rw [hcam]

/-- A witness for no_resource_key_outcome: with the results artifact
present and no camera id in the name, the task is skipped as already
done. -/
theorem no_resource_key_outcome_witness :
    processTask noFail ⟨"in", "out", "cal"⟩ 0
      ⟨["out/x"], [("out/x/results.pkl", [])]⟩ "in/x.mp4"
      = .ok (⟨["out/x"], [("out/x/results.pkl", [])]⟩, .SkippedAlreadyDone) :=
  no_resource_key_outcome noFail ⟨"in", "out", "cal"⟩ 0
    ⟨["out/x"], [("out/x/results.pkl", [])]⟩ "in/x.mp4" rfl

/-- C6 counterexample: a task whose name has no resource key ("x" has no
cam id) but whose output directory holds the results artifact yields
SkippedAlreadyDone, not the SkippedUnprocessable the claim requires, so
the ledger is consulted before the unprocessability check, not after. -/
theorem marker_beats_unprocessable :
    resultOutcome (processTask noFail ⟨"in", "out", "cal"⟩ 0
      ⟨["out/x"], [("out/x/results.pkl", [])]⟩ "in/x.mp4") = some .SkippedAlreadyDone
    ∧ findCamDigits (videoNameOf "in/x.mp4").data = none
    ∧ Outcome.SkippedAlreadyDone ≠ Outcome.SkippedUnprocessable :=
  ⟨rfl, rfl, by decide⟩

/-- C9: a skipped task mutates nothing: whenever a loop iteration returns a
Skipped outcome the filesystem is returned unchanged — no directory is
created and no marker file is written, appended to or deleted. -/
theorem skip_no_mutation (fails : FsOp → Bool) (cfg : Config) (exit : Int)
    (fs fs1 : FS) (f : String) (o : Outcome)
    (h : processTask fails cfg exit fs f = .ok (fs1, o))
    (ho : o = .SkippedAlreadyDone ∨ o = .SkippedPreviouslyFailed
      ∨ o = .SkippedUnprocessable) :
    fs1 = fs := by
  simp only [processTask] at h
  split at h
  · cases h; rfl
  · cases h; rfl
  · split at h
    · cases h; rfl
    · split at h
      · split at h
        · cases h
        · rcases handleExit_outcome h with rfl | rfl | rfl <;>
            rcases ho with h1 | h1 | h1 <;> cases h1
      · cases h; rfl

/-- A witness for skip_no_mutation at a previously-failed task. -/
theorem skip_no_mutation_witness :
    (⟨["out/x"], [("out/x/FAILED_RUN.txt", ["s"])]⟩ : FS)
      = ⟨["out/x"], [("out/x/FAILED_RUN.txt", ["s"])]⟩ :=
  skip_no_mutation noFail ⟨"in", "out", "cal"⟩ 0
    ⟨["out/x"], [("out/x/FAILED_RUN.txt", ["s"])]⟩
    ⟨["out/x"], [("out/x/FAILED_RUN.txt", ["s"])]⟩
    "in/x.mp4" .SkippedPreviouslyFailed rfl (Or.inr (Or.inl rfl))

/-- C7 (amended): a failing ledger filesystem operation is not caught
anywhere in main: the exception aborts the whole batch immediately — no
FailedOther outcome is recorded for the task and the remaining
descriptors are never processed. -/
theorem ledger_error_aborts_batch (fails : FsOp → Bool) (cfg : Config)
    (exitOf : String → Int) (fs : FS) (f : String) (rest : List String) (e : FsOp)
    (h : processTask fails cfg (exitOf f) fs f = .error e) :
    runBatch fails cfg exitOf fs (f :: rest) = .error e := by
  simp only [runBatch, h]

/-- The oracle under which creating the first task's output directory
raises OSError. -/
def mkdirFails : FsOp → Bool := fun op => decide (op = FsOp.mkdir "out/a_cam1")

/-- A witness for ledger_error_aborts_batch: the mkdir failure on the first
task aborts the two-task batch. -/
theorem ledger_error_aborts_batch_witness :
    runBatch mkdirFails ⟨"in", "out", "cal"⟩ (fun _ => 0)
      ⟨[], [("cal/1.txt", []), ("cal/2.txt", [])]⟩ ["in/a_cam1.mp4", "in/b_cam2.mp4"]
      = .error (.mkdir "out/a_cam1") :=
  ledger_error_aborts_batch mkdirFails ⟨"in", "out", "cal"⟩ (fun _ => 0)
    ⟨[], [("cal/1.txt", []), ("cal/2.txt", [])]⟩ "in/a_cam1.mp4" ["in/b_cam2.mp4"]
    (.mkdir "out/a_cam1") rfl

/-- C7 counterexample: when mkdir fails on the first of two tasks, the
whole batch run returns the error — the second descriptor is never
processed and no FailedOther outcome is recorded for the first task, so a
ledger error is fatal to the batch, not just to the current task. -/
theorem ledger_error_not_recorded :
    runBatch mkdirFails ⟨"in", "out", "cal"⟩ (fun _ => 0)
      ⟨[], [("cal/1.txt", []), ("cal/2.txt", [])]⟩ ["in/a_cam1.mp4", "in/b_cam2.mp4"]
      = .error (.mkdir "out/a_cam1")
    ∧ resultOutcome (processTask mkdirFails ⟨"in", "out", "cal"⟩ 0
        ⟨[], [("cal/1.txt", []), ("cal/2.txt", [])]⟩ "in/a_cam1.mp4") = none :=
  ⟨rfl, rfl⟩

/-- C10: the worker passes max_frame = None to the heavy computation for
every max_frames ≤ 0 (including the default -1) and passes exactly
max_frames whenever it is positive. -/
theorem workerMaxFrame_spec (max_frames : Int) :
    (max_frames ≤ 0 → workerMaxFrame max_frames = none)
    ∧ (0 < max_frames → workerMaxFrame max_frames = some max_frames)
    ∧ workerMaxFrame (-1) = none := by
  refine ⟨fun h => ?_, fun h => ?_, rfl⟩
  · unfold workerMaxFrame
    rw [if_neg (by omega)]
  · unfold workerMaxFrame
    rw [if_pos h]

/-- A witness for workerMaxFrame_spec at -1 and 7. -/
theorem workerMaxFrame_spec_witness :
    workerMaxFrame (-1) = none ∧ workerMaxFrame 7 = some 7 :=
  ⟨(workerMaxFrame_spec (-1)).1 (by decide), (workerMaxFrame_spec 7).2.1 (by decide)⟩

/-! ### The lexical path order is total, transitive and antisymmetric -/

theorem pathLeChars_total : ∀ a b : List Char,
    pathLe.pathLeChars a b = true ∨ pathLe.pathLeChars b a = true
  | [], _ => Or.inl rfl
  | _ :: _, [] => Or.inr rfl
  | x :: xs, y :: ys => by
    by_cases hxy : x = y
    · subst hxy
      simp only [pathLe.pathLeChars, if_pos rfl]
      exact pathLeChars_total xs ys
    · simp only [pathLe.pathLeChars, if_neg hxy, if_neg (Ne.symm hxy)]
      rcases lt_or_gt_of_ne hxy with h | h
      · exact Or.inl (by simpa using h)
      · exact Or.inr (by simpa using h)

theorem pathLeChars_trans : ∀ a b c : List Char,
    pathLe.pathLeChars a b = true → pathLe.pathLeChars b c = true →
    pathLe.pathLeChars a c = true
  | [], _, _, _, _ => rfl
  | _ :: _, [], _, h1, _ => by cases h1
  | _ :: _, _ :: _, [], _, h2 => by cases h2
  | x :: xs, y :: ys, z :: zs, h1, h2 => by
    simp only [pathLe.pathLeChars] at h1 h2 ⊢
    by_cases hxy : x = y
    · subst hxy
      rw [if_pos rfl] at h1
      by_cases hyz : x = z
      · subst hyz
        rw [if_pos rfl] at h2 ⊢
        exact pathLeChars_trans _ _ _ h1 h2
      · rw [if_neg hyz] at h2 ⊢
        exact h2
    · rw [if_neg hxy] at h1
      by_cases hyz : y = z
      · subst hyz
        rw [if_neg hxy]
        exact h1
      · rw [if_neg hyz] at h2
        have hxz : x < z := lt_trans (of_decide_eq_true h1) (of_decide_eq_true h2)
        rw [if_neg (ne_of_lt hxz)]
        exact decide_eq_true hxz

theorem pathLeChars_antisymm : ∀ a b : List Char,
    pathLe.pathLeChars a b = true → pathLe.pathLeChars b a = true → a = b
  | [], [], _, _ => rfl
  | [], _ :: _, _, h2 => by cases h2
  | _ :: _, [], h1, _ => by cases h1
  | x :: xs, y :: ys, h1, h2 => by
    simp only [pathLe.pathLeChars] at h1 h2
    by_cases hxy : x = y
    · subst hxy
      rw [if_pos rfl] at h1 h2
      rw [pathLeChars_antisymm xs ys h1 h2]
    · rw [if_neg hxy] at h1
      rw [if_neg (Ne.symm hxy)] at h2
      exact absurd (lt_trans (of_decide_eq_true h1) (of_decide_eq_true h2))
        (lt_irrefl x)

instance : IsTotal String PathLe :=
  ⟨fun a b => pathLeChars_total a.data b.data⟩

instance : IsTrans String PathLe :=
  ⟨fun a b c => pathLeChars_trans a.data b.data c.data⟩

instance : IsAntisymm String PathLe :=
  ⟨fun a b h1 h2 => String.ext (pathLeChars_antisymm a.data b.data h1 h2)⟩

/-- C8: scanning is deterministic: two independent walks that enumerate the
same file set (permutations of one another) produce identical descriptor
sequences; the scan keeps exactly the files whose extension is in the
fixed allow-list case-insensitively, and its output is lexically
sorted. -/
theorem scan_deterministic (walk1 walk2 : List String) (hperm : walk1.Perm walk2) :
    scan walk1 = scan walk2
    ∧ (∀ p, p ∈ scan walk1 ↔ p ∈ walk1 ∧ isVideoFile p = true)
    ∧ (scan walk1).Sorted PathLe := by
  have hs1 : (scan walk1).Sorted PathLe := List.sorted_insertionSort PathLe _
  have hs2 : (scan walk2).Sorted PathLe := List.sorted_insertionSort PathLe _
  have hp : (scan walk1).Perm (scan walk2) :=
    ((List.perm_insertionSort PathLe _).trans (hperm.filter isVideoFile)).trans
      (List.perm_insertionSort PathLe _).symm
  refine ⟨List.eq_of_perm_of_sorted hp hs1 hs2, fun p => ?_, hs1⟩
  rw [scan, List.Perm.mem_iff (List.perm_insertionSort PathLe _)]
  simp [List.mem_filter]

/-- A witness for scan_deterministic: two opposite-order walks of the same
three files scan to the same sorted descriptor sequence. -/
theorem scan_deterministic_witness :
    scan ["in/b.mp4", "in/a.mp4", "in/x.txt"]
      = scan ["in/x.txt", "in/a.mp4", "in/b.mp4"] :=
  (scan_deterministic ["in/b.mp4", "in/a.mp4", "in/x.txt"]
    ["in/x.txt", "in/a.mp4", "in/b.mp4"] (by decide)).1

/-! ### Idempotence of a second coordinator run -/

/-- A task is currently skippable: either its output directory exists with
the results artifact or the failure marker in it, or it is unprocessable
(no camera id, or calibration file missing). Every branch of the loop
body that does not spawn a worker is covered by this predicate. -/
def skipsNow (cfg : Config) (fs : FS) (f : String) : Bool :=
  (fs.dirExists (outDirOf cfg f)
    && (fs.fileExists (resultsOf (outDirOf cfg f))
      || fs.fileExists (markerOf (outDirOf cfg f))))
  || (match findCamDigits (videoNameOf f).data with
      | none => true
      | some ds => !fs.fileExists (calibOf cfg ds))

theorem FS.fileExists_writeFile_other {fs : FS} {p q : String} {ls : List String}
    (h : q ≠ p) : (fs.writeFile p ls).fileExists q = fs.fileExists q := by
  cases hq : fs.fileExists q
  · cases hw : (fs.writeFile p ls).fileExists q
    · rfl
    · rcases FS.fileExists_writeFile.mp hw with rfl | hc
      · exact absurd rfl h
      · rw [hc] at hq; cases hq
  · exact FS.fileExists_writeFile.mpr (Or.inr hq)

theorem FS.fileExists_unlink_other {fs : FS} {p q : String} (h : q ≠ p) :
    (fs.unlink p).fileExists q = fs.fileExists q := by
  cases hq : fs.fileExists q
  · cases hw : (fs.unlink p).fileExists q
    · rfl
    · rw [(FS.fileExists_unlink.mp hw).2] at hq; cases hq
  · exact FS.fileExists_unlink.mpr ⟨h, hq⟩

theorem FS.fileExists_appendFile_other {fs : FS} {p q : String} {l : String}
    (h : q ≠ p) : (fs.appendFile p l).fileExists q = fs.fileExists q :=
  FS.fileExists_writeFile_other h

theorem workerEffect_dirExists (d : String) (exit : Int) (fs : FS) (q : String) :
    (workerEffect d exit fs).dirExists q = fs.dirExists q := by
  unfold workerEffect
  split
  · rw [FS.dirExists_writeFile]
  · rfl

theorem workerEffect_fileExists_other (d : String) (exit : Int) (fs : FS)
    {p : String} (h : p ≠ resultsOf d) :
    (workerEffect d exit fs).fileExists p = fs.fileExists p := by
  unfold workerEffect
  split
  · exact FS.fileExists_writeFile_other h
  · rfl

theorem beginAttempt_inv {fails : FsOp → Bool} {cfg : Config} {g : String}
    {fs fs2 : FS} (h : beginAttempt fails cfg g fs = .ok fs2) :
    fs2 = (fs.mkdirP (outDirOf cfg g)).writeFile (markerOf (outDirOf cfg g))
      ["Processing started for " ++ basename g] := by
  simp only [beginAttempt] at h
  split at h
  · cases h
  · split at h
    · cases h
    · cases h; rfl

/-- Inversion of the exit handling: the four possible result forms. -/
theorem handleExit_cases {fails : FsOp → Bool} {marker : String} {exit : Int}
    {fs fs1 : FS} {o : Outcome}
    (h : handleExit fails marker exit fs = .ok (fs1, o)) :
    (exit = 0 ∧ o = .Completed ∧ (fs1 = fs.unlink marker ∨ fs1 = fs))
    ∨ (exit ≠ 0 ∧ (o = .CrashedOOM ∧ fs1 = fs.appendFile marker (oomLine exit)
        ∨ o = .FailedOther ∧ fs1 = fs.appendFile marker (failLine exit))) := by
  unfold handleExit recordSuccess at h
  split at h <;> rename_i hexit
  · split at h <;> rename_i heq
    · cases h
    · cases h
      left
      refine ⟨hexit, rfl, ?_⟩
      split at heq
      · split at heq
        · cases heq
        · cases heq; exact Or.inl rfl
      · cases heq; exact Or.inr rfl
  · split at h <;> rename_i hsig
    · split at h
      · cases h
      · cases h
        exact Or.inr ⟨hexit, Or.inl ⟨rfl, rfl⟩⟩
    · split at h
      · cases h
      · cases h
        exact Or.inr ⟨hexit, Or.inr ⟨rfl, rfl⟩⟩

/-- After begin_attempt, the worker and the exit handling, the output
directory exists and holds the results artifact or the failure marker;
directories only grow, and no file outside the task's marker and results
paths changes. -/
theorem runStep_post {fails : FsOp → Bool} {cfg : Config} {exit : Int}
    {fs fs1 : FS} {g : String} {o : Outcome} {ls : List String}
    (h : handleExit fails (markerOf (outDirOf cfg g)) exit
      (workerEffect (outDirOf cfg g) exit
        ((fs.mkdirP (outDirOf cfg g)).writeFile (markerOf (outDirOf cfg g)) ls))
      = .ok (fs1, o)) :
    (fs1.dirExists (outDirOf cfg g) = true
      ∧ (fs1.fileExists (resultsOf (outDirOf cfg g)) = true
        ∨ fs1.fileExists (markerOf (outDirOf cfg g)) = true))
    ∧ (∀ q, fs.dirExists q = true → fs1.dirExists q = true)
    ∧ (∀ p, p ≠ markerOf (outDirOf cfg g) → p ≠ resultsOf (outDirOf cfg g) →
        fs1.fileExists p = fs.fileExists p) := by
  set d := outDirOf cfg g with hd
  set m := markerOf d with hm
  set r := resultsOf d with hr
  set fs2 := (fs.mkdirP d).writeFile m ls with hfs2
  set fsW := workerEffect d exit fs2 with hfsW
  have hWdir : ∀ q, fsW.dirExists q = fs2.dirExists q :=
    fun q => workerEffect_dirExists d exit fs2 q
  have hWfile : ∀ p, p ≠ r → fsW.fileExists p = fs2.fileExists p :=
    fun p hp => workerEffect_fileExists_other d exit fs2 hp
  have h2dirSelf : fs2.dirExists d = true := by
    rw [hfs2, FS.dirExists_writeFile]
    exact FS.dirExists_mkdirP.mpr (Or.inl rfl)
  have h2dirMono : ∀ q, fs.dirExists q = true → fs2.dirExists q = true := by
    intro q hq
    rw [hfs2, FS.dirExists_writeFile]
    exact FS.dirExists_mkdirP.mpr (Or.inr hq)
  have h2file : ∀ p, p ≠ m → fs2.fileExists p = fs.fileExists p := by
    intro p hp
    rw [hfs2, FS.fileExists_writeFile_other hp, FS.fileExists_mkdirP]
  rcases handleExit_cases h with ⟨hexit, _, hfs1⟩ | ⟨hexit, hc⟩
  · have hWr : fsW.fileExists r = true := by
      rw [hfsW, hexit]
      unfold workerEffect
      rw [if_pos rfl]
      exact FS.fileExists_writeFile.mpr (Or.inl rfl)
    rcases hfs1 with rfl | rfl
    · refine ⟨⟨?_, Or.inl ?_⟩, ?_, ?_⟩
      · rw [FS.dirExists_unlink, hWdir]
        exact h2dirSelf
      · rw [FS.fileExists_unlink_other (resultsOf_ne_markerOf d d)]
        exact hWr
      · intro q hq
        rw [FS.dirExists_unlink, hWdir]
        exact h2dirMono q hq
      · intro p hpm hpr
        rw [FS.fileExists_unlink_other hpm, hWfile p hpr, h2file p hpm]
    · refine ⟨⟨?_, Or.inl hWr⟩, ?_, ?_⟩
      · rw [hWdir]
        exact h2dirSelf
      · intro q hq
        rw [hWdir]
        exact h2dirMono q hq
      · intro p hpm hpr
        rw [hWfile p hpr, h2file p hpm]
  · have hW2 : fsW = fs2 := by
      rw [hfsW]
      unfold workerEffect
      rw [if_neg hexit]
    rcases hc with ⟨_, rfl⟩ | ⟨_, rfl⟩
    · refine ⟨⟨?_, Or.inr (FS.fileExists_appendFile.mpr (Or.inl rfl))⟩, ?_, ?_⟩
      · rw [FS.dirExists_appendFile, hW2]
        exact h2dirSelf
      · intro q hq
        rw [FS.dirExists_appendFile, hW2]
        exact h2dirMono q hq
      · intro p hpm hpr
        rw [FS.fileExists_appendFile_other hpm, hW2, h2file p hpm]
    · refine ⟨⟨?_, Or.inr (FS.fileExists_appendFile.mpr (Or.inl rfl))⟩, ?_, ?_⟩
      · rw [FS.dirExists_appendFile, hW2]
        exact h2dirSelf
      · intro q hq
        rw [FS.dirExists_appendFile, hW2]
        exact h2dirMono q hq
      · intro p hpm hpr
        rw [FS.fileExists_appendFile_other hpm, hW2, h2file p hpm]

theorem bor_true {a b : Bool} : (a || b) = true ↔ a = true ∨ b = true := by
  simp

theorem classify_done_inv {fs : FS} {outDir : String}
    (h : classify fs outDir = .Done) :
    fs.dirExists outDir = true ∧ fs.fileExists (resultsOf outDir) = true := by
  unfold classify at h
  split at h <;> rename_i h1
  · split at h <;> rename_i h2
    · exact ⟨h1, h2⟩
    · split at h <;> cases h
  · cases h

theorem classify_prevFailed_inv {fs : FS} {outDir : String}
    (h : classify fs outDir = .PreviouslyFailed) :
    fs.dirExists outDir = true ∧ fs.fileExists (markerOf outDir) = true := by
  unfold classify at h
  split at h <;> rename_i h1
  · split at h <;> rename_i h2
    · cases h
    · split at h <;> rename_i h3
      · exact ⟨h1, h3⟩
      · cases h
  · cases h

theorem classify_notStarted_inv {fs : FS} {outDir : String}
    (h : classify fs outDir = .NotStarted) :
    fs.dirExists outDir = false
    ∨ (fs.fileExists (resultsOf outDir) = false
      ∧ fs.fileExists (markerOf outDir) = false) := by
  unfold classify at h
  split at h <;> rename_i h1
  · split at h <;> rename_i h2
    · cases h
    · split at h <;> rename_i h3
      · cases h
      · exact Or.inr ⟨by simpa using h2, by simpa using h3⟩
  · exact Or.inl (by simpa using h1)

theorem processTask_done {fails : FsOp → Bool} {cfg : Config} {exit : Int}
    {fs : FS} {f : String} (hc : classify fs (outDirOf cfg f) = .Done) :
    processTask fails cfg exit fs f = .ok (fs, .SkippedAlreadyDone) := by
  simp only [processTask]
  rw [hc]

theorem processTask_prevFailed {fails : FsOp → Bool} {cfg : Config} {exit : Int}
    {fs : FS} {f : String} (hc : classify fs (outDirOf cfg f) = .PreviouslyFailed) :
    processTask fails cfg exit fs f = .ok (fs, .SkippedPreviouslyFailed) := by
  simp only [processTask]
  rw [hc]

theorem processTask_noCam {fails : FsOp → Bool} {cfg : Config} {exit : Int}
    {fs : FS} {f : String} (hc : classify fs (outDirOf cfg f) = .NotStarted)
    (hcam : findCamDigits (videoNameOf f).data = none) :
    processTask fails cfg exit fs f = .ok (fs, .SkippedUnprocessable) := by
  simp only [processTask]
  rw [hc]
  dsimp only
  rw [hcam]

theorem processTask_noCalib {fails : FsOp → Bool} {cfg : Config} {exit : Int}
    {fs : FS} {f : String} {ds : List Char}
    (hc : classify fs (outDirOf cfg f) = .NotStarted)
    (hcam : findCamDigits (videoNameOf f).data = some ds)
    (hcal : fs.fileExists (calibOf cfg ds) = false) :
    processTask fails cfg exit fs f = .ok (fs, .SkippedUnprocessable) := by
  simp only [processTask]
  rw [hc]
  dsimp only
  rw [hcam]
  dsimp only
  rw [if_neg (by simp [hcal])]

/-- Either a loop iteration is a skip that leaves the filesystem unchanged,
or it is a run whose effect is bounded by runStep_post. -/
theorem processTask_run_inv {fails : FsOp → Bool} {cfg : Config} {exit : Int}
    {fs fs1 : FS} {g : String} {o : Outcome}
    (h : processTask fails cfg exit fs g = .ok (fs1, o)) :
    fs1 = fs
    ∨ ((fs1.dirExists (outDirOf cfg g) = true
        ∧ (fs1.fileExists (resultsOf (outDirOf cfg g)) = true
          ∨ fs1.fileExists (markerOf (outDirOf cfg g)) = true))
      ∧ (∀ q, fs.dirExists q = true → fs1.dirExists q = true)
      ∧ (∀ p, p ≠ markerOf (outDirOf cfg g) → p ≠ resultsOf (outDirOf cfg g) →
          fs1.fileExists p = fs.fileExists p)) := by
  simp only [processTask] at h
  split at h
  · cases h; exact Or.inl rfl
  · cases h; exact Or.inl rfl
  · split at h
    · cases h; exact Or.inl rfl
    · split at h
      · split at h <;> rename_i hb
        · cases h
        · rw [beginAttempt_inv hb] at h
          exact Or.inr (runStep_post h)
      · cases h; exact Or.inl rfl

/-- After any successful loop iteration the task itself is skippable. -/
theorem processTask_establishes {fails : FsOp → Bool} {cfg : Config} {exit : Int}
    {fs fs1 : FS} {g : String} {o : Outcome}
    (h : processTask fails cfg exit fs g = .ok (fs1, o)) :
    skipsNow cfg fs1 g = true := by
  simp only [processTask] at h
  split at h <;> rename_i hcl
  · cases h
    obtain ⟨hd, hr⟩ := classify_done_inv hcl
    simp only [skipsNow, Bool.or_eq_true, Bool.and_eq_true]
    exact Or.inl ⟨hd, Or.inl hr⟩
  · cases h
    obtain ⟨hd, hm⟩ := classify_prevFailed_inv hcl
    simp only [skipsNow, Bool.or_eq_true, Bool.and_eq_true]
    exact Or.inl ⟨hd, Or.inr hm⟩
  · split at h <;> rename_i hcam
    · cases h
      simp only [skipsNow, Bool.or_eq_true]
      right
      rw [hcam]
    · split at h <;> rename_i hcal
      · split at h <;> rename_i hb
        · cases h
        · rw [beginAttempt_inv hb] at h
          obtain ⟨⟨hd1, hrm⟩, _, _⟩ := runStep_post h
          simp only [skipsNow, Bool.or_eq_true, Bool.and_eq_true]
          exact Or.inl ⟨hd1, hrm⟩
      · cases h
        simp only [skipsNow, Bool.or_eq_true]
        right
        rw [hcam]
        simp only [Bool.not_eq_true'] at hcal ⊢
        simpa using hcal

/-- A skippable task is skipped: the iteration returns the filesystem
unchanged with a Skipped outcome, for every oracle and exit code. -/
theorem skipsNow_skips {cfg : Config} {fs : FS} {f : String}
    (hsk : skipsNow cfg fs f = true) (fails : FsOp → Bool) (exit : Int) :
    ∃ o, processTask fails cfg exit fs f = .ok (fs, o)
      ∧ (o = .SkippedAlreadyDone ∨ o = .SkippedPreviouslyFailed
        ∨ o = .SkippedUnprocessable) := by
  cases hcl : classify fs (outDirOf cfg f)
  · exact ⟨_, processTask_done hcl, Or.inl rfl⟩
  · exact ⟨_, processTask_prevFailed hcl, Or.inr (Or.inl rfl)⟩
  · have hs2 : (match findCamDigits (videoNameOf f).data with
        | none => true
        | some ds => !fs.fileExists (calibOf cfg ds)) = true := by
      simp only [skipsNow, Bool.or_eq_true, Bool.and_eq_true] at hsk
      rcases hsk with ⟨hd2, hrm⟩ | hs2
      · rcases classify_notStarted_inv hcl with hd | ⟨hr0, hm0⟩
        · rw [hd] at hd2
          cases hd2
        · rcases hrm with h1 | h1
          · rw [hr0] at h1; cases h1
          · rw [hm0] at h1; cases h1
      · exact hs2
    cases hcam : findCamDigits (videoNameOf f).data
    · exact ⟨_, processTask_noCam hcl hcam, Or.inr (Or.inr rfl)⟩
    · rename_i ds
      rw [hcam] at hs2
      refine ⟨_, processTask_noCalib hcl hcam ?_, Or.inr (Or.inr rfl)⟩
      simpa using hs2

/-- Skippability of any task is preserved by processing any other task. -/
theorem skipsNow_preserved {fails : FsOp → Bool} {cfg : Config} {exit : Int}
    {fs fs1 : FS} {g : String} {og : Outcome} (f : String)
    (h : processTask fails cfg exit fs g = .ok (fs1, og))
    (hsk : skipsNow cfg fs f = true) : skipsNow cfg fs1 f = true := by
  rcases processTask_run_inv h with rfl | ⟨⟨hd1, hrm1⟩, hmono, hother⟩
  · exact hsk
  · by_cases hod : outDirOf cfg f = outDirOf cfg g
    · simp only [skipsNow, Bool.or_eq_true, Bool.and_eq_true]
      left
      rw [hod]
      exact ⟨hd1, hrm1⟩
    · simp only [skipsNow, Bool.or_eq_true, Bool.and_eq_true] at hsk ⊢
      rcases hsk with ⟨hd, hrm⟩ | hs2
      · left
        refine ⟨hmono _ hd, ?_⟩
        rcases hrm with h1 | h1
        · left
          rw [hother _ (resultsOf_ne_markerOf _ _) (fun hc => hod (resultsOf_inj hc))]
          exact h1
        · right
          rw [hother _ (fun hc => hod (markerOf_inj hc)) (markerOf_ne_resultsOf _ _)]
          exact h1
      · right
        cases hcam : findCamDigits (videoNameOf f).data
        · rfl
        · rename_i ds
          obtain ⟨hne, hdig⟩ := findCamDigits_digits hcam
          rw [hcam] at hs2
          dsimp only at hs2 ⊢
          rw [hother _ (calibOf_ne_markerOf cfg hne hdig _) (calibOf_ne_resultsOf cfg hne _)]
          exact hs2

/-- Skippability is preserved by a whole batch run. -/
theorem runBatch_preserves_skipsNow {cfg : Config} {exitOf : String → Int}
    (f : String) :
    ∀ {files : List String} {fs fs1 : FS} {os : List Outcome},
      runBatch noFail cfg exitOf fs files = .ok (fs1, os) →
      skipsNow cfg fs f = true → skipsNow cfg fs1 f = true := by
  intro files
  induction files with
  | nil =>
    intro fs fs1 os h hsk
    simp only [runBatch] at h
    cases h
    exact hsk
  | cons g rest ih =>
    intro fs fs1 os h hsk
    simp only [runBatch] at h
    split at h <;> rename_i hstep
    · cases h
    · split at h <;> rename_i hrest
      · cases h
      · cases h
        exact ih hrest (skipsNow_preserved f hstep hsk)

/-- After a complete batch run, every processed task is skippable in the
final filesystem state. -/
theorem runBatch_post {cfg : Config} {exitOf : String → Int} :
    ∀ {files : List String} {fs fs1 : FS} {os : List Outcome},
      runBatch noFail cfg exitOf fs files = .ok (fs1, os) →
      ∀ f ∈ files, skipsNow cfg fs1 f = true := by
  intro files
  induction files with
  | nil =>
    intro fs fs1 os h f hf
    exact absurd hf (List.not_mem_nil f)
  | cons g rest ih =>
    intro fs fs1 os h f hf
    simp only [runBatch] at h
    split at h <;> rename_i hstep
    · cases h
    · split at h <;> rename_i hrest
      · cases h
      · cases h
        rcases List.mem_cons.mp hf with rfl | hmem
        · exact runBatch_preserves_skipsNow f hrest (processTask_establishes hstep)
        · exact ih hrest f hmem

/-- A batch over all-skippable tasks leaves the filesystem unchanged and
produces only Skipped outcomes. -/
theorem runBatch_all_skips {cfg : Config} {exitOf : String → Int} :
    ∀ {files : List String} {fs : FS},
      (∀ f ∈ files, skipsNow cfg fs f = true) →
      ∃ os, runBatch noFail cfg exitOf fs files = .ok (fs, os)
        ∧ ∀ o ∈ os, o = .SkippedAlreadyDone ∨ o = .SkippedPreviouslyFailed
          ∨ o = .SkippedUnprocessable := by
  intro files
  induction files with
  | nil =>
    intro fs _
    exact ⟨[], rfl, by simp⟩
  | cons g rest ih =>
    intro fs hsk
    obtain ⟨o, h1, ho⟩ := skipsNow_skips (hsk g (by simp)) noFail (exitOf g)
    obtain ⟨os, h2, hos⟩ := ih (fun f hf => hsk f (by simp [hf]))
    refine ⟨o :: os, ?_, ?_⟩
    · simp only [runBatch, h1, h2]
    · intro o2 ho2
      rcases List.mem_cons.mp ho2 with rfl | hm
      · exact ho
      · exact hos o2 hm

/-- C5: running the full coordinator a second time over an unchanged input
root performs zero worker executions: from the final state of any
complete first run, every task is skipped — as already done, previously
failed, or unprocessable — before a worker would be spawned, for every
exit-code oracle (no worker result can influence the second run because
no worker runs), and the filesystem is unchanged. -/
theorem second_run_no_worker (cfg : Config) (exitOf1 exitOf2 : String → Int)
    (walk : List String) (fs fs1 : FS) (os1 : List Outcome)
    (h1 : mainRun noFail cfg exitOf1 (some walk) fs = .ok (fs1, os1)) :
    ∃ os2, mainRun noFail cfg exitOf2 (some walk) fs1 = .ok (fs1, os2)
      ∧ ∀ o ∈ os2, o = .SkippedAlreadyDone ∨ o = .SkippedPreviouslyFailed
        ∨ o = .SkippedUnprocessable := by
  simp only [mainRun] at h1 ⊢
  exact runBatch_all_skips (runBatch_post h1)

/-- A witness for second_run_no_worker: after a successful one-task first
run, the second run skips the task as already done. -/
theorem second_run_no_worker_witness :
    ∃ os2, mainRun noFail ⟨"in", "out", "cal"⟩ (fun _ => 0) (some ["in/a_cam1.mp4"])
        ⟨["out/a_cam1"], [("out/a_cam1/results.pkl", []), ("cal/1.txt", [])]⟩
      = .ok (⟨["out/a_cam1"], [("out/a_cam1/results.pkl", []), ("cal/1.txt", [])]⟩, os2)
      ∧ ∀ o ∈ os2, o = .SkippedAlreadyDone ∨ o = .SkippedPreviouslyFailed
        ∨ o = .SkippedUnprocessable :=
  second_run_no_worker ⟨"in", "out", "cal"⟩ (fun _ => 0) (fun _ => 0)
    ["in/a_cam1.mp4"] ⟨[], [("cal/1.txt", [])]⟩
    ⟨["out/a_cam1"], [("out/a_cam1/results.pkl", []), ("cal/1.txt", [])]⟩
    [.Completed] rfl

end ProcessDataset
